import Mathlib

/-!
Shallow embedding of the report-compiler PDF post-processing core
(`src/report_compiler.py`, `src/report_compiler/pdf/*.py`), together with
proofs settling the frozen claims about it.

Coordinates are PDF points (72 per inch); the source manipulates them as
Python floats, which we model with exact rationals, since every claim is
about exact arithmetic relationships.  Documents are modelled as lists of
pages; a page carries its media rectangle and a list of content items
(text spans, vector drawings, and transplanted foreign page content).
-/

namespace ReportCompiler

/-- A rectangle `(x0, y0, x1, y1)` in point units, as in `fitz.Rect`. -/
structure Rect where
  x0 : ℚ
  y0 : ℚ
  x1 : ℚ
  y1 : ℚ
  deriving DecidableEq, Repr

def Rect.width (r : Rect) : ℚ := r.x1 - r.x0

def Rect.height (r : Rect) : ℚ := r.y1 - r.y0

/-- `fitz.Rect.is_empty`: true when the width or the height is not positive. -/
def Rect.isEmpty (r : Rect) : Bool := r.x1 ≤ r.x0 || r.y1 ≤ r.y0

/-- `fitz.Rect.intersect`: pointwise max of the lower corners and min of the
upper corners. -/
def Rect.intersect (r s : Rect) : Rect :=
  ⟨max r.x0 s.x0, max r.y0 s.y0, min r.x1 s.x1, min r.y1 s.y1⟩

/-- `fitz.Rect.include_rect`: the smallest rectangle containing both. -/
def Rect.includeRect (r s : Rect) : Rect :=
  ⟨min r.x0 s.x0, min r.y0 s.y0, max r.x1 s.x1, max r.y1 s.y1⟩

/-- An RGB colour with components in `[0, 1]`. -/
structure Color where
  r : ℚ
  g : ℚ
  b : ℚ
  deriving DecidableEq, Repr

def whiteColor : Color := ⟨1, 1, 1⟩

/-- One visible item of a PDF page.  `text` models a text span (a glyph run
with its bounding box), `drawing` a vector path painted by `page.draw_rect`,
and `transplant` the opaque content placed by the external
`page.show_pdf_page` call (target rectangle and clip rectangle). -/
inductive PageItem where
  | text (s : String) (rect : Rect)
  | drawing (rect : Rect) (stroke : Color) (fill : Color)
  | transplant (target : Rect) (clip : Rect)
  deriving DecidableEq, Repr

/-- A PDF page: its media box and its content items in paint order. -/
structure Page where
  rect : Rect
  items : List PageItem
  deriving DecidableEq, Repr

/-- A PDF document is its list of pages. -/
abbrev Document := List Page

/-- `page.search_for(markerText)`: the rectangles of all text spans whose text
is exactly the needle, in content order. -/
def searchFor (page : Page) (markerText : String) : List Rect :=
  page.items.filterMap fun item =>
    match item with
    | .text s r => if s = markerText then some r else none
    | _ => none

/-- `MarkerRemover._find_marker_rect`: the first search hit, if any. -/
def findMarkerRect (page : Page) (markerText : String) : Option Rect :=
  (searchFor page markerText).head?

/-- `MarkerRemover.find_marker_position`, reduced to the datum the callers
use: the marker rectangle (the inch conversions are display only). -/
def findMarkerPosition (page : Page) (markerText : String) : Option Rect :=
  findMarkerRect page markerText

/-- `MarkerRemover._get_background_color`: always white in the source. -/
def getBackgroundColor (_page : Page) (_rect : Rect) : Color := whiteColor

/-- The cover rectangle used by `MarkerRemover._remove_text_advanced`: the
text rectangle expanded by one point on every side. -/
def coverRect (textRect : Rect) : Rect :=
  ⟨textRect.x0 - 1, textRect.y0 - 1, textRect.x1 + 1, textRect.y1 + 1⟩

/-- `MarkerRemover._remove_text_advanced`: draws a background-coloured filled
rectangle over the text (`page.draw_rect(cover_rect, fill=bg, ...)`) and
reports success.  Nothing is deleted from the page. -/
def removeTextAdvanced (page : Page) (textRect : Rect) : Bool × Page :=
  let bg := getBackgroundColor page textRect
  (true, ⟨page.rect, page.items ++ [.drawing (coverRect textRect) bg bg]⟩)

/-- `MarkerRemover.remove_marker_text`: find the marker text, return `false`
when absent, otherwise run the advanced (paint-over) removal. -/
def removeMarkerText (page : Page) (markerText : String) : Bool × Page :=
  match findMarkerRect page markerText with
  | none => (false, page)
  | some markerRect => removeTextAdvanced page markerRect

/-! ### Configuration (modelled)

`report_compiler/core/config.py` and `report_compiler/utils/page_selector.py`
are imported throughout the package but are not present under `src/`; only
their callers and tests are.  The marker formats below are therefore modelled
from the spec; the page-selector results consumed by the engines are taken as
explicit inputs. -/

/-- Zero-padded two-digit decimal rendering of an ordinal. -/
def padTwo (n : Nat) : String :=
  if n < 10 then "0" ++ toString n else toString n

/-- Modelled from the spec: `Config.get_overlay_marker(table_idx)` of the
missing `core/config.py`; §6 gives the grammar `%%OVERLAY_START_<NN>%%` with a
zero-padded decimal ordinal. -/
def getOverlayMarker (tableIdx : Nat) : String :=
  "%%OVERLAY_START_" ++ padTwo tableIdx ++ "%%"

/-- Modelled from the spec: `Config.get_overlay_marker(table_idx, page)` for a
continuation page; §6 gives `%%OVERLAY_START_<NN>_PAGE_<PP>%%`. -/
def getOverlayPageMarker (tableIdx page : Nat) : String :=
  "%%OVERLAY_START_" ++ padTwo tableIdx ++ "_PAGE_" ++ padTwo page ++ "%%"

/-- Modelled from the spec: `Config.get_merge_marker(idx)` of the missing
`core/config.py`; §6 gives `%%MERGE_START_<NN>%%`. -/
def getMergeMarker (idx : Nat) : String :=
  "%%MERGE_START_" ++ padTwo idx ++ "%%"

/-- Modelled from the spec: the missing `core/config.py` also supplies
`Config.DEFAULT_PADDING` (used when `apply_content_cropping` is called without
an explicit padding); its numeric value is unspecified, so it stays a
parameter of the embedding. -/
structure Config where
  defaultPadding : ℚ
  deriving DecidableEq, Repr

/-! ### Content analysis and cropping (`pdf/content_analyzer.py`) -/

/-- The extent of one page item, as seen by `get_content_bbox` (text span
boxes, drawing rectangles, image/transplant extents). -/
def PageItem.extent : PageItem → Rect
  | .text _ r => r
  | .drawing r _ _ => r
  | .transplant target _ => target

/-- `ContentAnalyzer.get_content_bbox`: the running `include_rect` union of
every item's extent; `none` on a content-free page. -/
def getContentBbox (page : Page) : Option Rect :=
  page.items.foldl
    (fun acc item =>
      match acc with
      | none => some item.extent
      | some r => some (r.includeRect item.extent))
    none

/-- `ContentAnalyzer.apply_content_cropping`.  `padding = none` stands for the
Python default argument, replaced by `Config.DEFAULT_PADDING`.  Disabled
cropping, an absent bounding box, and an empty bounding box all yield the full
page rectangle; otherwise the bounding box is expanded by the padding on all
four sides and intersected with the page rectangle. -/
def applyContentCropping (cfg : Config) (page : Page) (cropEnabled : Bool)
    (padding : Option ℚ) : Rect :=
  let padding := padding.getD cfg.defaultPadding
  if !cropEnabled then page.rect
  else
    match getContentBbox page with
    | some contentBbox =>
        if contentBbox.isEmpty then page.rect
        else
          let paddedBbox : Rect :=
            ⟨contentBbox.x0 - padding, contentBbox.y0 - padding,
             contentBbox.x1 + padding, contentBbox.y1 + padding⟩
          paddedBbox.intersect page.rect
    | none => page.rect

/-- The `applyPadding` operation exactly as §4.4 of the spec words it, for the
refinement comparison with `applyContentCropping`: expand the bounding box by
`max(padding, minimumBorderPadding)` on all sides, clipped to the page; full
page when cropping is disabled or the box is absent. -/
def applyPaddingSpec (minimumBorderPadding : ℚ) (bbox : Option Rect)
    (padding : ℚ) (pageRect : Rect) (enabled : Bool) : Rect :=
  if !enabled then pageRect
  else
    match bbox with
    | none => pageRect
    | some b =>
        let e := max padding minimumBorderPadding
        Rect.intersect ⟨b.x0 - e, b.y0 - e, b.x1 + e, b.y1 + e⟩ pageRect

/-! ### Overlay geometry (`pdf/overlay_processor.py`) -/

/-- The table-dimension metadata entry for one table index: the Python dict
accessed with `table_dims.get('width_pts', 540)` / `get('height_pts', 288)`. -/
structure TableDims where
  widthPts : Option ℚ
  heightPts : Option ℚ
  deriving DecidableEq, Repr

/-- The overlay rectangle computed inside
`OverlayProcessor._find_and_remove_marker`: anchored at the marker's top-left
corner, extended by the recorded table dimensions (540 × 288 points — 7.5 × 4
inches — when the metadata has no entry). -/
def overlayRectFor (markerRect : Rect) (tableDims : TableDims) : Rect :=
  let tableWidthPts := tableDims.widthPts.getD 540
  let tableHeightPts := tableDims.heightPts.getD 288
  ⟨markerRect.x0, markerRect.y0,
   markerRect.x0 + tableWidthPts, markerRect.y0 + tableHeightPts⟩

/-- Recursion for `_find_and_remove_marker`: scan pages in order; on the first
page holding the marker, compute the overlay rectangle, paint the marker over,
and stop.  Returns the result together with the updated document. -/
def findAndRemoveMarkerAux (marker : String) (dims : TableDims) :
    Document → Nat → Option (Rect × Nat) × Document
  | [], _ => (none, [])
  | page :: rest, pageIndex =>
    match findMarkerPosition page marker with
    | some markerRect =>
        let rect := overlayRectFor markerRect dims
        let page' := (removeMarkerText page marker).2
        (some (rect, pageIndex), page' :: rest)
    | none =>
        let r := findAndRemoveMarkerAux marker dims rest (pageIndex + 1)
        (r.1, page :: r.2)

/-- `OverlayProcessor._find_and_remove_marker`. -/
def findAndRemoveMarker (doc : Document) (marker : String) (dims : TableDims) :
    Option (Rect × Nat) × Document :=
  findAndRemoveMarkerAux marker dims doc 0

/-- The scale-and-translate data computed by
`OverlayProcessor._overlay_page_content`. -/
structure OverlayTransform where
  scale : ℚ
  translateX : ℚ
  translateY : ℚ
  deriving DecidableEq, Repr

/-- The transformation computed in `_overlay_page_content`: the smaller of the
two axis scale factors, and the translation centring the scaled crop in the
overlay rectangle. -/
def overlayPageTransform (overlayRect cropRect : Rect) : OverlayTransform :=
  let scaleX := overlayRect.width / cropRect.width
  let scaleY := overlayRect.height / cropRect.height
  let scale := min scaleX scaleY
  let scaledWidth := cropRect.width * scale
  let scaledHeight := cropRect.height * scale
  let translateX :=
    overlayRect.x0 + (overlayRect.width - scaledWidth) / 2 - cropRect.x0 * scale
  let translateY :=
    overlayRect.y0 + (overlayRect.height - scaledHeight) / 2 - cropRect.y0 * scale
  ⟨scale, translateX, translateY⟩

/-- Horizontal action of the transform on a coordinate. -/
def OverlayTransform.applyX (t : OverlayTransform) (x : ℚ) : ℚ :=
  t.scale * x + t.translateX

/-- Vertical action of the transform on a coordinate. -/
def OverlayTransform.applyY (t : OverlayTransform) (y : ℚ) : ℚ :=
  t.scale * y + t.translateY

/-! ### Overlay engine (`pdf/overlay_processor.py`) -/

/-- The external `base_page.show_pdf_page(rect, src, pno, clip, matrix)`
call: it adds the (opaque) transplanted content to the base page.  Only the
state effect is modelled; the geometry itself is settled on
`overlayPageTransform`. -/
def showPdfPage (target clip : Rect) (basePage : Page) : Page :=
  ⟨basePage.rect, basePage.items ++ [.transplant target clip]⟩

/-- Replace page `i` of a document by `f` of it (in-place page mutation). -/
def modifyPage (f : Page → Page) : Nat → Document → Document
  | _, [] => []
  | 0, p :: ps => f p :: ps
  | n + 1, p :: ps => p :: modifyPage f n ps

/-- An overlay placeholder as consumed by
`OverlayProcessor._process_single_overlay`: its table index, the appendix
document behind `resolved_path`, the crop flag, and the page indices produced
for it by the (externally implemented) `PageSelector.apply_selection`. -/
structure OverlayPlaceholder where
  tableIndex : Nat
  appendix : Document
  cropEnabled : Bool
  selectedPages : List Nat
  deriving DecidableEq, Repr

/-- The in-source fallback of `_process_single_overlay` (lines 104–105):
an empty selection falls back to every page of the appendix. -/
def pagesToOverlay (appendix : Document) (selectedPages : List Nat) : List Nat :=
  if selectedPages.isEmpty then List.range appendix.length else selectedPages

/-- The per-selected-page loop of `_process_single_overlay`.  `i` is the
1-based loop counter: position 1 targets the main overlay rectangle, later
positions search for their continuation marker and are skipped (with a
warning) when it is absent.  An out-of-range source index raises in Python
and makes the placeholder fail. -/
def overlayLoop (cfg : Config) (dims : TableDims) (tableIdx : Nat)
    (cropEnabled : Bool) (appendix : Document) (overlayRect : Rect)
    (startPageIndex : Nat) : Nat → List Nat → Document → Bool × Document
  | _, [], doc => (true, doc)
  | i, srcIdx :: rest, doc =>
    match appendix.get? srcIdx with
    | none => (false, doc)
    | some sourcePage =>
        let cropRect := applyContentCropping cfg sourcePage cropEnabled none
        if i = 1 then
          let doc' := modifyPage (showPdfPage overlayRect cropRect) startPageIndex doc
          overlayLoop cfg dims tableIdx cropEnabled appendix overlayRect
            startPageIndex (i + 1) rest doc'
        else
          let pageMarker := getOverlayPageMarker tableIdx i
          match findAndRemoveMarker doc pageMarker dims with
          | (some (markerRect, markerPageIdx), doc') =>
              let doc'' := modifyPage (showPdfPage markerRect cropRect) markerPageIdx doc'
              overlayLoop cfg dims tableIdx cropEnabled appendix overlayRect
                startPageIndex (i + 1) rest doc''
          | (none, doc') =>
              overlayLoop cfg dims tableIdx cropEnabled appendix overlayRect
                startPageIndex (i + 1) rest doc'

/-- `OverlayProcessor._process_single_overlay`: locate and remove the main
marker (failing the placeholder when it is absent), then overlay each selected
appendix page. -/
def processSingleOverlay (cfg : Config) (doc : Document)
    (ph : OverlayPlaceholder) (tableMetadata : Nat → TableDims) : Bool × Document :=
  let mainMarker := getOverlayMarker ph.tableIndex
  let dims := tableMetadata ph.tableIndex
  match findAndRemoveMarker doc mainMarker dims with
  | (none, doc') => (false, doc')
  | (some (overlayRect, startPageIndex), doc') =>
      let pages := pagesToOverlay ph.appendix ph.selectedPages
      overlayLoop cfg dims ph.tableIndex ph.cropEnabled ph.appendix overlayRect
        startPageIndex 1 pages doc'

/-- Recursion for `process_overlays`: placeholders are processed in order;
the first failing placeholder makes the whole call return `False` at once,
leaving the rest unprocessed.  The returned list collects the 0-based
positions of the placeholders that were fully processed. -/
def processOverlaysAux (cfg : Config) (tableMetadata : Nat → TableDims) :
    Document → List OverlayPlaceholder → Nat → Bool × Document × List Nat
  | doc, [], _ => (true, doc, [])
  | doc, ph :: rest, idx =>
    match processSingleOverlay cfg doc ph tableMetadata with
    | (true, doc') =>
        let r := processOverlaysAux cfg tableMetadata doc' rest (idx + 1)
        (r.1, r.2.1, idx :: r.2.2)
    | (false, doc') => (false, doc', [])

/-- `OverlayProcessor.process_overlays` (saving aside, which is I/O). -/
def processOverlays (cfg : Config) (doc : Document)
    (phs : List OverlayPlaceholder) (tableMetadata : Nat → TableDims) :
    Bool × Document × List Nat :=
  processOverlaysAux cfg tableMetadata doc phs 0

/-! ### Page-selection parsing and validation (`src/report_compiler.py`) -/

/-- One comma-separated token of a page specification, after the purely
lexical work of `ReportCompiler._parse_page_specification` (splitting on
commas and reading decimal integers; tokens whose integers fail to parse
raise `ValueError`, which the source maps to "use all pages" and is modelled
as the absent-specification case). -/
inductive PageTerm where
  | single (n : Int)
  | closed (a b : Int)
  | openFrom (n : Int)
  deriving DecidableEq, Repr

/-- Python's `range(a, b + 1)` over integers, as a list. -/
def intRangeList (a b : Int) : List Int :=
  (List.range (b + 1 - a).toNat).map fun i => a + (i : Int)

/-- The explicit (non-open) 0-based pages a term contributes to the
`selected_pages` set: `N` contributes `N - 1`, `N-M` contributes
`N - 1 … M - 1`. -/
def termExplicitPages : PageTerm → List Int
  | .single n => [n - 1]
  | .closed a b => intRangeList (a - 1) (b - 1)
  | .openFrom _ => []

/-- The 0-based start an open-ended term `N-` contributes. -/
def termOpenStart : PageTerm → Option Int
  | .openFrom n => some (n - 1)
  | _ => none

/-- `ReportCompiler._parse_page_specification` on a parsed term list: the
explicit selections are collected into a set and sorted (modelled as
`dedup` then insertion sort), the open-range start is kept aside.  The
source stores the open ranges in the same Python set and keeps whichever is
iterated last; with at most one open-ended term — the only case the claims
touch — this is exactly the last one in token order. -/
def parsePageSpecification (terms : List PageTerm) : List Int × Option Int :=
  let finalPages :=
    List.insertionSort (· ≤ ·) ((terms.flatMap termExplicitPages).dedup)
  let openRangeStart := (terms.filterMap termOpenStart).getLast?
  (finalPages, openRangeStart)

/-- Outcome of the page-specification part of
`ReportCompiler._validate_pdf_references` for one placeholder. -/
inductive ValidationResult where
  /-- "No valid pages in specification": the placeholder is dropped
  (`continue`) and never reaches the engines. -/
  | rejected
  /-- `selected_pages = None`: every page is used. -/
  | allPages
  /-- The concrete `selected_pages` recorded on the placeholder. -/
  | selected (pages : List Int)
  deriving DecidableEq, Repr

/-- The `valid_pages` computation of `_validate_pdf_references`: the parsed
explicit pages, extended by `range(open_range_start, total_pages)` when an
open-ended range is present, filtered to `0 ≤ p < total_pages`. -/
def resolvedValidPages (terms : List PageTerm) (totalPages : Nat) : List Int :=
  let parsed := parsePageSpecification terms
  let pages :=
    match parsed.2 with
    | some s => parsed.1 ++ intRangeList s ((totalPages : Int) - 1)
    | none => parsed.1
  pages.filter fun p => 0 ≤ p && p < (totalPages : Int)

/-- The page-selection resolution performed by `_validate_pdf_references`
(lines 492–523): parse the specification, build `valid_pages`, and reject the
placeholder when nothing remains.  `spec = none` models both an absent
specification and one whose parse raised (the source uses all pages in either
case). -/
def validatePdfReference (spec : Option (List PageTerm)) (totalPages : Nat) :
    ValidationResult :=
  match spec with
  | none => .allPages
  | some terms =>
      if (resolvedValidPages terms totalPages).isEmpty then .rejected
      else .selected (resolvedValidPages terms totalPages)

/-! ### Merge engine (`pdf/merge_processor.py`) -/

/-- An outline entry `[level, title, page, opts]` as produced by
`get_toc(simple=False)`; the opaque destination options are carried through
every operation unchanged and are therefore omitted from the model. -/
structure TocEntry where
  level : Int
  title : String
  page : Int
  deriving DecidableEq, Repr

def appendixKeyword : String := "APPENDIX"

/-- `needle` is a leading run of `hay`. -/
def startsWithChars : List Char → List Char → Bool
  | [], _ => true
  | _ :: _, [] => false
  | c :: cs, d :: ds => c = d && startsWithChars cs ds

/-- Python's `needle in hay` on character sequences. -/
def containsChars (needle : List Char) : List Char → Bool
  | [] => needle.isEmpty
  | c :: cs => startsWithChars needle (c :: cs) || containsChars needle cs

/-- ASCII upper-casing of one character (the keyword being searched for is
pure ASCII, so Python's `str.upper()` agrees with this on every character
that can matter to the match). -/
def asciiUpper (c : Char) : Char :=
  if 97 ≤ c.toNat && c.toNat ≤ 122 then Char.ofNat (c.toNat - 32) else c

def upperChars : List Char → List Char
  | [] => []
  | c :: cs => asciiUpper c :: upperChars cs

/-- The `"APPENDIX" in title.upper()` test of
`MergeProcessor._find_appendix_heading_in_toc`. -/
def titleHasAppendix (title : String) : Bool :=
  containsChars appendixKeyword.toList (upperChars title.toList)

/-- `MergeProcessor._find_appendix_heading_in_toc`: the index of the first
entry whose target page is the marker's page or the one after it and whose
title contains the appendix keyword. -/
def findAppendixHeadingInToc (tocEntries : List TocEntry) (markerPageNum : Int) :
    Option Nat :=
  tocEntries.findIdx? fun e =>
    (e.page == markerPageNum || e.page == markerPageNum + 1) && titleHasAppendix e.title

/-- `MergeProcessor._adjust_appendix_toc`: rebase every entry's 1-based page
number by the 0-based insertion offset and its level by the nesting base. -/
def adjustAppendixToc (entries : List TocEntry) (pageOffsetInFinalDoc : Int)
    (baseNestLevel : Int) : List TocEntry :=
  entries.map fun e =>
    ⟨baseNestLevel + e.level, e.title, e.page - 1 + pageOffsetInFinalDoc + 1⟩

/-- Python's `for x in reversed(xs): l.insert(i, x)` — splice `xs` into `l`
at position `i` (clamped to the end, as `list.insert` clamps). -/
def insertListAt {α : Type} (l : List α) (i : Nat) (xs : List α) : List α :=
  l.take i ++ xs ++ l.drop i

/-- The page run `from_page … to_page` handed to `insert_pdf` (inclusive). -/
def sliceInclusive (doc : Document) (a b : Nat) : Document :=
  (doc.drop a).take (b + 1 - a)

/-- The pages `output_doc.insert_pdf` physically adds for a non-empty
selection: the whole appendix when the selection covers every page, else the
contiguous run from the first to the last selected index (the source's
documented approximation of non-contiguous selections). -/
def insertedPages (appendix : Document) (sel : List Nat) : Document :=
  if sel.length = appendix.length then appendix
  else
    match sel.head?, sel.getLast? with
    | some a, some b => sliceInclusive appendix a b
    | _, _ => []

/-- A merge placeholder as consumed by `process_merges`: the appendix
document behind `resolved_path`, its outline, and the page indices produced
for it by the (externally implemented) `PageSelector.apply_selection`. -/
structure MergePlaceholder where
  appendix : Document
  appendixToc : List TocEntry
  selectedPages : List Nat
  deriving DecidableEq, Repr

/-- One entry of `sorted_placeholder_infos`. -/
structure MergeInfo where
  placeholder : MergePlaceholder
  originalMarkerPageIdx : Nat
  markerText : String
  deriving DecidableEq, Repr

/-- Recursion for the initial marker scan: the first page index whose
`search_for` hits the marker. -/
def findMarkerPageIdxAux (marker : String) : Document → Nat → Option Nat
  | [], _ => none
  | page :: rest, i =>
      if (searchFor page marker).isEmpty then findMarkerPageIdxAux marker rest (i + 1)
      else some i

def findMarkerPageIdx (doc : Document) (marker : String) : Option Nat :=
  findMarkerPageIdxAux marker doc 0

/-- The scan over `enumerate(merge_placeholders, 1)` building
`sorted_placeholder_infos` before sorting: placeholders whose marker is absent
from the pristine base document are skipped with a warning. -/
def scanMergeMarkersAux (base : Document) :
    List MergePlaceholder → Nat → List MergeInfo
  | [], _ => []
  | ph :: rest, idx =>
      let marker := getMergeMarker idx
      match findMarkerPageIdx base marker with
      | some p => ⟨ph, p, marker⟩ :: scanMergeMarkersAux base rest (idx + 1)
      | none => scanMergeMarkersAux base rest (idx + 1)

def scanMergeMarkers (base : Document) (phs : List MergePlaceholder) :
    List MergeInfo :=
  scanMergeMarkersAux base phs 1

/-- The sort key `lambda x: x['original_marker_page_idx']` (Python's `sort`
is stable and ascending, exactly like `List.insertionSort` with `≤` on the
key). -/
def mergeInfoLe (x y : MergeInfo) : Prop :=
  x.originalMarkerPageIdx ≤ y.originalMarkerPageIdx

instance : DecidableRel mergeInfoLe := fun x y =>
  Nat.decLe x.originalMarkerPageIdx y.originalMarkerPageIdx

instance : IsTotal MergeInfo mergeInfoLe :=
  ⟨fun x y => Nat.le_total x.originalMarkerPageIdx y.originalMarkerPageIdx⟩

instance : IsTrans MergeInfo mergeInfoLe :=
  ⟨fun _ _ _ h h' => Nat.le_trans h h'⟩

/-- The offset-bookkeeping data of one performed insertion, recorded for the
audit of the merge loop. -/
structure MergeEvent where
  originalMarkerPageIdx : Nat
  offsetBefore : Nat
  insertionStart : Nat
  numPagesInserted : Nat
  offsetAfter : Nat
  deriving DecidableEq, Repr

/-- The mutable state of the `process_merges` loop. -/
structure MergeState where
  outputDoc : Document
  masterToc : List TocEntry
  offset : Nat
  deriving DecidableEq, Repr

/-- One iteration of the `for info in sorted_placeholder_infos` loop of
`process_merges`: bounds check (skip when the shifted marker page fell out of
the document), marker removal, TOC reconciliation against the *original*
base TOC, and physical page insertion with offset accumulation.  The
returned event records the insertion actually performed, if any. -/
def mergeStep (baseToc : List TocEntry) (st : MergeState) (info : MergeInfo) :
    MergeState × Option MergeEvent :=
  let currentIdx := info.originalMarkerPageIdx + st.offset
  if currentIdx < st.outputDoc.length then
    let doc1 :=
      modifyPage (fun p => (removeMarkerText p info.markerText).2) currentIdx st.outputDoc
    let insertionStart := currentIdx + 1
    let appendixToc := info.placeholder.appendixToc
    let masterToc' :=
      match findAppendixHeadingInToc baseToc ((currentIdx : Int) + 1) with
      | some h =>
          if appendixToc.isEmpty then st.masterToc
          else
            -- `h` indexes `baseToc`, so the lookup never misses; the
            -- default keeps the function total.
            let existingLevel := ((baseToc.get? h).map TocEntry.level).getD 1
            insertListAt st.masterToc (h + 1)
              (adjustAppendixToc appendixToc (insertionStart : Int) existingLevel)
      | none =>
          if appendixToc.isEmpty then st.masterToc
          else st.masterToc ++ adjustAppendixToc appendixToc (insertionStart : Int) 1
    let sel := info.placeholder.selectedPages
    if sel.isEmpty then
      (⟨doc1, masterToc', st.offset⟩, none)
    else
      let inserted := insertedPages info.placeholder.appendix sel
      let doc2 := insertListAt doc1 insertionStart inserted
      (⟨doc2, masterToc', st.offset + sel.length⟩,
        some ⟨info.originalMarkerPageIdx, st.offset, insertionStart,
              inserted.length, st.offset + sel.length⟩)
  else
    (st, none)

/-- The whole merge loop, collecting the performed insertions in order. -/
def mergeFold (baseToc : List TocEntry) :
    MergeState → List MergeInfo → MergeState × List MergeEvent
  | st, [] => (st, [])
  | st, info :: rest =>
      let r := mergeStep baseToc st info
      let r' := mergeFold baseToc r.1 rest
      (r'.1, r.2.toList ++ r'.2)

/-- The result of a merge run (persisting aside, which is I/O). -/
structure MergeRunResult where
  outputDoc : Document
  masterToc : List TocEntry
  events : List MergeEvent
  deriving DecidableEq, Repr

/-- `MergeProcessor.process_merges`: scan the pristine base document for the
markers, sort ascending by original marker page, then run the merge loop
starting from the base document, its outline as the master TOC, and offset
zero. -/
def processMerges (base : Document) (baseToc : List TocEntry)
    (phs : List MergePlaceholder) : MergeRunResult :=
  let infos := scanMergeMarkers base phs
  let sorted := List.insertionSort mergeInfoLe infos
  let r := mergeFold baseToc ⟨base, baseToc, 0⟩ sorted
  ⟨r.1.outputDoc, r.1.masterToc, r.2⟩

/-- The offset-bookkeeping the spec claims: insertions happen immediately
after `originalMarkerPage + offset`, and the offset then grows by the number
of pages inserted.  Input pairs are `(originalMarkerPageIdx, selectionLength)`
in processing order. -/
def expectedEvents (offset : Nat) : List (Nat × Nat) → List MergeEvent
  | [] => []
  | (orig, n) :: rest =>
      ⟨orig, offset, orig + offset + 1, n, offset + n⟩ :: expectedEvents (offset + n) rest

/-- A non-empty contiguous ascending page selection lying inside the
appendix. -/
def contiguousSelection (ph : MergePlaceholder) : Prop :=
  ∃ a k, 0 < k ∧ a + k ≤ ph.appendix.length ∧ ph.selectedPages = List.range' a k

/-- A well-formed page selection as `PageSelector.apply_selection` delivers
it: non-empty, strictly ascending, and within the appendix.  Unlike
`contiguousSelection` this admits gaps, the case where the code's
bounding-run insertion and its offset bookkeeping come apart. -/
def selWellFormed (ph : MergePlaceholder) : Prop :=
  ph.selectedPages ≠ [] ∧ ph.selectedPages.Sorted (· < ·) ∧
    ∀ p ∈ ph.selectedPages, p < ph.appendix.length

/-- The bookkeeping the merge loop actually performs, over triples
`(originalMarkerPageIdx, selectionLength, pagesPhysicallyInserted)` in
processing order: each insertion lands immediately after
`originalMarkerPage + offset`, the event records the pages physically added
(the bounding contiguous run), and the offset then advances by the
*selection* length — which coincides with the pages inserted only for
contiguous selections. -/
def expectedEventsSel (offset : Nat) : List (Nat × Nat × Nat) → List MergeEvent
  | [] => []
  | (orig, nSel, nIns) :: rest =>
      ⟨orig, offset, orig + offset + 1, nIns, offset + nSel⟩ ::
        expectedEventsSel (offset + nSel) rest

/-! ### Concrete instances used to exercise the embedding -/

/-- A letter-size page rectangle. -/
def letterRect : Rect := ⟨0, 0, 612, 792⟩

def exMarkerText : String := "%%MERGE_START_01%%"

def exMarkerRect : Rect := ⟨100, 100, 200, 110⟩

/-- A page whose only content is one merge-marker text span. -/
def exPage : Page := ⟨letterRect, [.text exMarkerText exMarkerRect]⟩

def exConfig : Config := ⟨5⟩

/-- Table metadata with no recorded entry for any table. -/
def emptyTableMetadata : Nat → TableDims := fun _ => ⟨none, none⟩

/-- An appendix page with a bit of drawing content. -/
def exAppendixPage : Page :=
  ⟨letterRect, [.drawing ⟨10, 10, 20, 20⟩ whiteColor whiteColor]⟩

def exAppendix : Document := [exAppendixPage]

/-- A base page carrying the overlay marker of table 2 only. -/
def exPageWithOverlayMarker2 : Page :=
  ⟨letterRect, [.text (getOverlayMarker 2) ⟨72, 650, 180, 660⟩]⟩

def exOverlayBase : Document := [exPageWithOverlayMarker2]

def exOverlayPh1 : OverlayPlaceholder := ⟨1, exAppendix, true, [0]⟩

def exOverlayPh2 : OverlayPlaceholder := ⟨2, exAppendix, true, [0]⟩

def exBlankPage : Page := ⟨letterRect, []⟩

def exMergeMarkerPage1 : Page :=
  ⟨letterRect, [.text (getMergeMarker 1) ⟨72, 400, 180, 410⟩]⟩

def exMergeMarkerPage2 : Page :=
  ⟨letterRect, [.text (getMergeMarker 2) ⟨72, 500, 180, 510⟩]⟩

/-- An 8-page base: merge marker 1 on 0-based page 4, merge marker 2 on
0-based page 6 (1-based page 7, so its appendix would start at source page
8). -/
def exMergeBase : Document :=
  [exBlankPage, exBlankPage, exBlankPage, exBlankPage, exMergeMarkerPage1,
   exBlankPage, exMergeMarkerPage2, exBlankPage]

def exAppendixA : Document := [exAppendixPage, exAppendixPage, exAppendixPage]

def exAppendixB : Document := [exAppendixPage, exAppendixPage]

def exMergePhA : MergePlaceholder := ⟨exAppendixA, [], List.range' 0 3⟩

def exMergePhB : MergePlaceholder := ⟨exAppendixB, [], List.range' 0 2⟩

def exIntroTitle : String := "INTRODUCTION"

def exDrawingTitle : String := "DRAWING A"

/-- A base TOC with no appendix heading at all. -/
def exBaseToc : List TocEntry := [⟨1, exIntroTitle, 1⟩]

def exAppendixToc : List TocEntry := [⟨1, exDrawingTitle, 1⟩]

/-- A merge placeholder carrying an appendix outline. -/
def exMergePhToc : MergePlaceholder := ⟨exAppendixB, exAppendixToc, [0, 1]⟩

/-- A 2-page base with merge marker 1 on page 0. -/
def exMergeBaseToc : Document := [exMergeMarkerPage1, exBlankPage]

/-- A 100 × 100 page whose content bounding box is `(10, 10, 20, 20)`. -/
def exCropPage : Page :=
  ⟨⟨0, 0, 100, 100⟩, [.drawing ⟨10, 10, 20, 20⟩ whiteColor whiteColor]⟩

/-- A merge placeholder with the non-contiguous selection `[0, 2]` of a
3-page appendix: `insert_pdf` receives `from_page=0, to_page=2` and inserts
all three pages, while the offset is advanced by 2. -/
def exMergePhNoncontig : MergePlaceholder := ⟨exAppendixA, [], [0, 2]⟩

/-! ## Helper lemmas -/

theorem searchFor_append_drawing (rect : Rect) (items : List PageItem)
    (m : String) (d : Rect) (c₁ c₂ : Color) :
    searchFor ⟨rect, items ++ [.drawing d c₁ c₂]⟩ m = searchFor ⟨rect, items⟩ m := by
  simp [searchFor]

theorem findAndRemoveMarkerAux_none (marker : String) (dims : TableDims) :
    ∀ (doc : Document) (i : Nat),
      (findAndRemoveMarkerAux marker dims doc i).1 = none →
      (findAndRemoveMarkerAux marker dims doc i).2 = doc := by
  intro doc
  induction doc with
  | nil => intro i _; rfl
  | cons page rest ih =>
      intro i h
      cases hfp : findMarkerPosition page marker with
      | some r => simp [findAndRemoveMarkerAux, hfp] at h
      | none =>
          simp only [findAndRemoveMarkerAux, hfp] at h ⊢
          rw [ih (i + 1) h]

/-! ## C1 -/

/-- C1 is refuted on the code: `remove_marker_text` succeeds on the example
page, yet the marker's glyph item is still present afterwards (the removal
painted over it), and a second call on the same region finds the surviving
text again and returns `true`, not `false`. -/
theorem remove_marker_counterexample :
    (removeMarkerText exPage exMarkerText).1 = true ∧
    PageItem.text exMarkerText exMarkerRect ∈ (removeMarkerText exPage exMarkerText).2.items ∧
    (removeMarkerText (removeMarkerText exPage exMarkerText).2 exMarkerText).1 = true := by
  decide

/-- C1 (amended): `remove_marker_text` does not delete the glyph data under
the marker; it appends a white filled rectangle covering the (slightly
expanded) marker rectangle, keeping every prior item.  It returns `false`
only when the marker text is absent, and a repeated call on the same region
finds the untouched text again and returns `true`. -/
theorem remove_marker_paints_over (page : Page) (marker : String) (r : Rect)
    (h : findMarkerRect page marker = some r) :
    (removeMarkerText page marker).1 = true ∧
    (removeMarkerText page marker).2 =
      ⟨page.rect, page.items ++ [.drawing (coverRect r) whiteColor whiteColor]⟩ ∧
    (removeMarkerText (removeMarkerText page marker).2 marker).1 = true := by
  have h2 : removeMarkerText page marker =
      (true, ⟨page.rect, page.items ++ [.drawing (coverRect r) whiteColor whiteColor]⟩) := by
    simp [removeMarkerText, h, removeTextAdvanced, getBackgroundColor]
  refine ⟨by simp [h2], by simp [h2], ?_⟩
  have h3 : findMarkerRect
      (⟨page.rect, page.items ++ [.drawing (coverRect r) whiteColor whiteColor]⟩ : Page)
      marker = some r := by
    unfold findMarkerRect at h ⊢
    rw [searchFor_append_drawing]
    exact h
  rw [h2]
  unfold removeMarkerText
  rw [h3]
  rfl

/-- Witness for C1 (amended) on the concrete example page. -/
theorem remove_marker_paints_over_witness :
    findMarkerRect exPage exMarkerText = some exMarkerRect ∧
    ((removeMarkerText exPage exMarkerText).1 = true ∧
      (removeMarkerText exPage exMarkerText).2 =
        ⟨exPage.rect, exPage.items ++
          [.drawing (coverRect exMarkerRect) whiteColor whiteColor]⟩ ∧
      (removeMarkerText (removeMarkerText exPage exMarkerText).2 exMarkerText).1 = true) :=
  ⟨by decide, remove_marker_paints_over exPage exMarkerText exMarkerRect (by decide)⟩

/-! ## C2 -/

/-- C2 is refuted on the code: with placeholder 1's main marker absent from
the base document (while placeholder 2's marker is present),
`process_overlays` returns `False` at once and processes no placeholder at
all — the run is aborted instead of skipping only the failing placeholder. -/
theorem overlay_missing_marker_counterexample :
    (processOverlays exConfig exOverlayBase [exOverlayPh1, exOverlayPh2] emptyTableMetadata).1
        = false ∧
    (processOverlays exConfig exOverlayBase [exOverlayPh1, exOverlayPh2] emptyTableMetadata).2.2
        = [] := by
  decide

/-- C2 (amended): when the main marker of the first pending overlay
placeholder is absent, `_process_single_overlay` reports failure and
`process_overlays` aborts immediately: it returns `False`, the base document
is left as it was, and none of the placeholders — neither the failing one nor
the remaining ones — is processed. -/
theorem overlay_missing_marker_aborts (cfg : Config) (doc : Document)
    (ph : OverlayPlaceholder) (rest : List OverlayPlaceholder)
    (md : Nat → TableDims)
    (h : (findAndRemoveMarker doc (getOverlayMarker ph.tableIndex) (md ph.tableIndex)).1 = none) :
    processOverlays cfg doc (ph :: rest) md = (false, doc, []) := by
  have hdoc : findAndRemoveMarker doc (getOverlayMarker ph.tableIndex) (md ph.tableIndex)
      = (none, doc) := by
    unfold findAndRemoveMarker at h ⊢
    have h2 := findAndRemoveMarkerAux_none (getOverlayMarker ph.tableIndex)
      (md ph.tableIndex) doc 0 h
    rcases hp : findAndRemoveMarkerAux (getOverlayMarker ph.tableIndex) (md ph.tableIndex) doc 0
      with ⟨a, b⟩
    rw [hp] at h h2
    simp only [Prod.mk.injEq]
    exact ⟨h, h2⟩
  simp [processOverlays, processOverlaysAux, processSingleOverlay, hdoc]

/-- Witness for C2 (amended): placeholder 1's marker is absent from the
example base document. -/
theorem overlay_missing_marker_aborts_witness :
    (findAndRemoveMarker exOverlayBase (getOverlayMarker exOverlayPh1.tableIndex)
        (emptyTableMetadata exOverlayPh1.tableIndex)).1 = none ∧
    processOverlays exConfig exOverlayBase [exOverlayPh1, exOverlayPh2] emptyTableMetadata
      = (false, exOverlayBase, []) :=
  ⟨by decide,
    overlay_missing_marker_aborts exConfig exOverlayBase exOverlayPh1 [exOverlayPh2]
      emptyTableMetadata (by decide)⟩

/-! ## C5 and C10: the overlay rectangle -/

theorem findAndRemoveMarkerAux_found (marker : String) (dims : TableDims)
    (page : Page) (markerRect : Rect)
    (hfound : findMarkerPosition page marker = some markerRect) :
    ∀ (pre : Document) (rest : Document) (i : Nat),
      (∀ p ∈ pre, findMarkerPosition p marker = none) →
      (findAndRemoveMarkerAux marker dims (pre ++ page :: rest) i).1 =
        some (overlayRectFor markerRect dims, i + pre.length) := by
  intro pre
  induction pre with
  | nil =>
      intro rest i _
      simp [findAndRemoveMarkerAux, hfound]
  | cons p ps ih =>
      intro rest i hnone
      have hp : findMarkerPosition p marker = none := hnone p (by simp)
      have hr := ih rest (i + 1) fun q hq => hnone q (by simp [hq])
      have harith : i + 1 + ps.length = i + (ps.length + 1) := by omega
      simp only [List.cons_append, findAndRemoveMarkerAux, hp, List.append_eq,
        List.length_cons]
      rw [hr, harith]

/-- C5: when the main marker is first found on a page with top-left corner
`(x0, y0)` and the table metadata records width `w` and height `h` in points,
the computed overlay rectangle is exactly `(x0, y0, x0 + w, y0 + h)`; the
appendix document does not enter the computation at all, so the rectangle is
independent of the appendix's own page size. -/
theorem overlay_rect_exact (pre rest : Document) (page : Page) (marker : String)
    (dims : TableDims) (markerRect : Rect) (w h : ℚ)
    (hpre : ∀ p ∈ pre, findMarkerPosition p marker = none)
    (hfound : findMarkerPosition page marker = some markerRect)
    (hw : dims.widthPts = some w) (hh : dims.heightPts = some h) :
    (findAndRemoveMarker (pre ++ page :: rest) marker dims).1 =
      some (⟨markerRect.x0, markerRect.y0, markerRect.x0 + w, markerRect.y0 + h⟩,
        pre.length) := by
  have hfra := findAndRemoveMarkerAux_found marker dims page markerRect hfound pre rest 0 hpre
  unfold findAndRemoveMarker
  rw [hfra]
  simp [overlayRectFor, hw, hh]

/-- Witness for C5: marker at `(100, 100)` with table geometry
`width = 200, height = 100` yields exactly `(100, 100, 300, 200)`. -/
theorem overlay_rect_exact_witness :
    findMarkerPosition exPage exMarkerText = some exMarkerRect ∧
    (findAndRemoveMarker [exPage] exMarkerText ⟨some 200, some 100⟩).1 =
      some (⟨100, 100, 300, 200⟩, 0) :=
  ⟨by decide, by
    have h := overlay_rect_exact [] [] exPage exMarkerText ⟨some 200, some 100⟩
      exMarkerRect 200 100 (by simp) (by decide) rfl rfl
    norm_num [exMarkerRect] at h
    exact h⟩

/-- C10: when the table-dimension metadata has no recorded width or height
for the table index, the overlay rectangle silently defaults to 540 × 288
points (7.5 × 4 inches) anchored at the marker's top-left corner, and the
placeholder is not failed: a rectangle is still returned. -/
theorem overlay_rect_default (pre rest : Document) (page : Page) (marker : String)
    (dims : TableDims) (markerRect : Rect)
    (hpre : ∀ p ∈ pre, findMarkerPosition p marker = none)
    (hfound : findMarkerPosition page marker = some markerRect)
    (hw : dims.widthPts = none) (hh : dims.heightPts = none) :
    (findAndRemoveMarker (pre ++ page :: rest) marker dims).1 =
      some (⟨markerRect.x0, markerRect.y0, markerRect.x0 + 540, markerRect.y0 + 288⟩,
        pre.length) := by
  have hfra := findAndRemoveMarkerAux_found marker dims page markerRect hfound pre rest 0 hpre
  unfold findAndRemoveMarker
  rw [hfra]
  simp [overlayRectFor, hw, hh]

/-- Witness for C10: with no metadata entry the example marker at
`(100, 100)` yields the rectangle `(100, 100, 640, 388)`. -/
theorem overlay_rect_default_witness :
    findMarkerPosition exPage exMarkerText = some exMarkerRect ∧
    (findAndRemoveMarker [exPage] exMarkerText (emptyTableMetadata 1)).1 =
      some (⟨100, 100, 640, 388⟩, 0) :=
  ⟨by decide, by
    have h := overlay_rect_default [] [] exPage exMarkerText (emptyTableMetadata 1)
      exMarkerRect (by simp) (by decide) rfl rfl
    norm_num [exMarkerRect] at h
    exact h⟩

/-! ## C6: the transplant transformation -/

/-- C6: the transplant scale is `min(target.width / crop.width,
target.height / crop.height)`, the same factor acts on both axes (the mapped
crop measures `scale · width` by `scale · height`, so the aspect ratio is
preserved and fits inside the target), and the translation maps the crop
rectangle's centre to the target rectangle's centre on both axes. -/
theorem overlay_transform_uniform_centered (target crop : Rect)
    (hw : 0 < crop.width) (hh : 0 < crop.height) :
    (overlayPageTransform target crop).scale =
        min (target.width / crop.width) (target.height / crop.height) ∧
    ((overlayPageTransform target crop).applyX crop.x1 -
        (overlayPageTransform target crop).applyX crop.x0 =
      (overlayPageTransform target crop).scale * crop.width) ∧
    ((overlayPageTransform target crop).applyY crop.y1 -
        (overlayPageTransform target crop).applyY crop.y0 =
      (overlayPageTransform target crop).scale * crop.height) ∧
    (overlayPageTransform target crop).scale * crop.width ≤ target.width ∧
    (overlayPageTransform target crop).scale * crop.height ≤ target.height ∧
    (overlayPageTransform target crop).applyX ((crop.x0 + crop.x1) / 2) =
      (target.x0 + target.x1) / 2 ∧
    (overlayPageTransform target crop).applyY ((crop.y0 + crop.y1) / 2) =
      (target.y0 + target.y1) / 2 := by
  have hscale : (overlayPageTransform target crop).scale =
      min (target.width / crop.width) (target.height / crop.height) := rfl
  refine ⟨hscale, ?_, ?_, ?_, ?_, ?_, ?_⟩
  · simp only [OverlayTransform.applyX, Rect.width]
    ring
  · simp only [OverlayTransform.applyY, Rect.height]
    ring
  · rw [hscale]
    exact (le_div_iff₀ hw).mp (min_le_left _ _)
  · rw [hscale]
    exact (le_div_iff₀ hh).mp (min_le_right _ _)
  · simp only [OverlayTransform.applyX, overlayPageTransform, Rect.width, Rect.height]
    ring
  · simp only [OverlayTransform.applyY, overlayPageTransform, Rect.width, Rect.height]
    ring

/-- Witness for C6 at a concrete target and crop rectangle. -/
theorem overlay_transform_uniform_centered_witness :
    (0 < Rect.width ⟨0, 0, 100, 100⟩ ∧ 0 < Rect.height ⟨0, 0, 100, 100⟩) ∧
    ((overlayPageTransform ⟨100, 100, 300, 200⟩ ⟨0, 0, 100, 100⟩).scale =
        min (Rect.width ⟨100, 100, 300, 200⟩ / Rect.width ⟨0, 0, 100, 100⟩)
          (Rect.height ⟨100, 100, 300, 200⟩ / Rect.height ⟨0, 0, 100, 100⟩) ∧
      ((overlayPageTransform ⟨100, 100, 300, 200⟩ ⟨0, 0, 100, 100⟩).applyX 100 -
          (overlayPageTransform ⟨100, 100, 300, 200⟩ ⟨0, 0, 100, 100⟩).applyX 0 =
        (overlayPageTransform ⟨100, 100, 300, 200⟩ ⟨0, 0, 100, 100⟩).scale *
          Rect.width ⟨0, 0, 100, 100⟩) ∧
      ((overlayPageTransform ⟨100, 100, 300, 200⟩ ⟨0, 0, 100, 100⟩).applyY 100 -
          (overlayPageTransform ⟨100, 100, 300, 200⟩ ⟨0, 0, 100, 100⟩).applyY 0 =
        (overlayPageTransform ⟨100, 100, 300, 200⟩ ⟨0, 0, 100, 100⟩).scale *
          Rect.height ⟨0, 0, 100, 100⟩) ∧
      (overlayPageTransform ⟨100, 100, 300, 200⟩ ⟨0, 0, 100, 100⟩).scale *
          Rect.width ⟨0, 0, 100, 100⟩ ≤ Rect.width ⟨100, 100, 300, 200⟩ ∧
      (overlayPageTransform ⟨100, 100, 300, 200⟩ ⟨0, 0, 100, 100⟩).scale *
          Rect.height ⟨0, 0, 100, 100⟩ ≤ Rect.height ⟨100, 100, 300, 200⟩ ∧
      (overlayPageTransform ⟨100, 100, 300, 200⟩ ⟨0, 0, 100, 100⟩).applyX ((0 + 100) / 2) =
        (100 + 300) / 2 ∧
      (overlayPageTransform ⟨100, 100, 300, 200⟩ ⟨0, 0, 100, 100⟩).applyY ((0 + 100) / 2) =
        (100 + 200) / 2) :=
  ⟨⟨by norm_num [Rect.width], by norm_num [Rect.height]⟩,
    overlay_transform_uniform_centered ⟨100, 100, 300, 200⟩ ⟨0, 0, 100, 100⟩
      (by norm_num [Rect.width]) (by norm_num [Rect.height])⟩

/-! ## C9: content-aware cropping -/

/-- C9 is refuted on the code: there is no positive minimum border padding
for which `apply_content_cropping` matches the spec's
`max(padding, minimumBorderPadding)` expansion — with an explicit padding of
0 the code returns the bounding box unexpanded. -/
theorem apply_padding_no_min_border_counterexample :
    ¬ ∃ m : ℚ, 0 < m ∧ ∀ (cfg : Config) (page : Page) (pad : ℚ) (enabled : Bool),
        applyContentCropping cfg page enabled (some pad) =
          applyPaddingSpec m (getContentBbox page) pad page.rect enabled := by
  rintro ⟨m, hm, hall⟩
  have hb : getContentBbox exCropPage = some ⟨10, 10, 20, 20⟩ := rfl
  have h0 := hall exConfig exCropPage 0 true
  rw [hb] at h0
  have hl : applyContentCropping exConfig exCropPage true (some 0) =
      (⟨10, 10, 20, 20⟩ : Rect) := by
    rw [applyContentCropping, hb]
    norm_num [Rect.isEmpty, Rect.intersect, exCropPage, max_def, min_def]
  rw [hl] at h0
  have hx := congrArg Rect.x0 h0
  rw [applyPaddingSpec] at hx
  norm_num [Rect.intersect, exCropPage] at hx
  rw [max_eq_right hm.le] at hx
  rcases max_cases (10 - m : ℚ) 0 with ⟨he, _⟩ | ⟨he, _⟩ <;> rw [he] at hx <;> linarith

/-- C9 (amended): `apply_content_cropping` returns the full page rectangle
when cropping is disabled, and otherwise — for a present, non-empty content
bounding box — returns the box expanded by exactly the given padding on all
four sides (no minimum-border floor is applied; an absent padding argument
falls back to the configured default), clipped to the page rectangle. -/
theorem apply_content_cropping_formula (cfg : Config) (page : Page)
    (padding : ℚ) (b : Rect)
    (hb : getContentBbox page = some b) (hne : b.isEmpty = false) :
    applyContentCropping cfg page false (some padding) = page.rect ∧
    applyContentCropping cfg page true (some padding) =
      Rect.intersect ⟨b.x0 - padding, b.y0 - padding, b.x1 + padding, b.y1 + padding⟩
        page.rect := by
  constructor
  · simp [applyContentCropping]
  · simp [applyContentCropping, hb, hne]

/-- Witness for C9 (amended) on the concrete example page. -/
theorem apply_content_cropping_formula_witness :
    (getContentBbox exCropPage = some ⟨10, 10, 20, 20⟩ ∧
      Rect.isEmpty ⟨10, 10, 20, 20⟩ = false) ∧
    (applyContentCropping exConfig exCropPage false (some 3) = exCropPage.rect ∧
      applyContentCropping exConfig exCropPage true (some 3) =
        Rect.intersect ⟨10 - 3, 10 - 3, 20 + 3, 20 + 3⟩ exCropPage.rect) :=
  ⟨⟨rfl, by norm_num [Rect.isEmpty]⟩,
    apply_content_cropping_formula exConfig exCropPage 3 ⟨10, 10, 20, 20⟩
      rfl (by norm_num [Rect.isEmpty])⟩

/-! ## C7 and C8: page-selection resolution -/

theorem modifyPage_length (f : Page → Page) : ∀ (n : Nat) (doc : Document),
    (modifyPage f n doc).length = doc.length := by
  intro n doc
  induction doc generalizing n with
  | nil => cases n <;> rfl
  | cons p ps ih =>
      cases n with
      | zero => rfl
      | succ k => simp [modifyPage, ih]

/-- C7 is refuted on the code: the valid specification `"1,1-"` against a
1-page document resolves to `[0, 0]` — the open-ended range is appended after
the sorted explicit pages without re-sorting or deduplication, so the result
is neither strictly ascending nor duplicate-free. -/
theorem resolve_open_range_counterexample :
    validatePdfReference (some [.single 1, .openFrom 1]) 1 = .selected [0, 0] ∧
    ¬ ([(0 : Int), 0].Sorted (· < ·)) ∧ ¬ ([(0 : Int), 0].Nodup) :=
  ⟨by decide, by decide, by decide⟩

/-- C7 (amended): for every specification without an open-ended range, the
resolution against a page count `T` is strictly ascending, duplicate-free,
and lies in `[0, T)` (explicit selections are deduplicated and out-of-range
pages dropped).  With an open-ended range the expansion is appended after the
sorted explicit pages, so mixed specifications can resolve out of order and
with duplicates. -/
theorem resolve_no_open_sorted (terms : List PageTerm) (T : Nat)
    (hno : ∀ t ∈ terms, termOpenStart t = none) (l : List Int)
    (hl : validatePdfReference (some terms) T = .selected l) :
    l.Sorted (· < ·) ∧ ∀ p ∈ l, 0 ≤ p ∧ p < (T : Int) := by
  have hfm : terms.filterMap termOpenStart = [] := by
    rw [List.filterMap_eq_nil_iff]
    exact hno
  have hr : resolvedValidPages terms T =
      (List.insertionSort (· ≤ ·) ((terms.flatMap termExplicitPages).dedup)).filter
        (fun p => 0 ≤ p && p < (T : Int)) := by
    simp [resolvedValidPages, parsePageSpecification, hfm]
  have hl' : l = resolvedValidPages terms T := by
    rw [validatePdfReference] at hl
    by_cases hc : (resolvedValidPages terms T).isEmpty
    · simp [hc] at hl
    · simp [hc] at hl
      exact hl.symm
  subst hl'
  rw [hr]
  constructor
  · apply List.Sorted.lt_of_le
    · exact (List.sorted_insertionSort _ _).filter _
    · exact ((List.perm_insertionSort _ _).nodup_iff.mpr (List.nodup_dedup _)).filter _
  · intro p hp
    have hcond := (List.mem_filter.mp hp).2
    simp at hcond
    exact hcond

/-- Witness for C7 (amended) on the specification `"1,3-5"` against a 4-page
document. -/
theorem resolve_no_open_sorted_witness :
    (∀ t ∈ [PageTerm.single 1, PageTerm.closed 3 5], termOpenStart t = none) ∧
    validatePdfReference (some [PageTerm.single 1, PageTerm.closed 3 5]) 4 =
      .selected [0, 2, 3] ∧
    ([(0 : Int), 2, 3].Sorted (· < ·) ∧
      ∀ p ∈ [(0 : Int), 2, 3], 0 ≤ p ∧ p < ((4 : Nat) : Int)) :=
  ⟨by decide, by decide,
    resolve_no_open_sorted [PageTerm.single 1, PageTerm.closed 3 5] 4 (by decide)
      [0, 2, 3] (by decide)⟩

/-- C8 is refuted on the code: the specification `"5"` against a 2-page
document filters to nothing, and the validation pass then *rejects* the
placeholder (it never reaches the engines) instead of falling back to all
pages. -/
theorem empty_filter_rejects_counterexample :
    validatePdfReference (some [.single 5]) 2 = .rejected ∧
    ValidationResult.rejected ≠ ValidationResult.allPages :=
  ⟨by decide, by decide⟩

/-- C8 (amended): the three consumers of a page selection disagree when
filtering leaves nothing.  The overlay engine falls back to every appendix
page; the merge engine skips that placeholder's insertion (no pages added, no
offset change) while the run continues; the validation pass rejects the
owning placeholder outright. -/
theorem empty_selection_fallbacks :
    (∀ appendix : Document, pagesToOverlay appendix [] = List.range appendix.length) ∧
    (∀ (baseToc : List TocEntry) (st : MergeState) (info : MergeInfo),
      info.placeholder.selectedPages.isEmpty = true →
      (mergeStep baseToc st info).1.outputDoc.length = st.outputDoc.length ∧
      (mergeStep baseToc st info).1.offset = st.offset ∧
      (mergeStep baseToc st info).2 = none) ∧
    (∀ (terms : List PageTerm) (T : Nat),
      (resolvedValidPages terms T).isEmpty = true →
      validatePdfReference (some terms) T = .rejected) := by
  refine ⟨fun appendix => rfl, ?_, ?_⟩
  · intro baseToc st info hsel
    by_cases hidx : info.originalMarkerPageIdx + st.offset < st.outputDoc.length
    · simp [mergeStep, hidx, hsel, modifyPage_length]
    · simp [mergeStep, hidx]
  · intro terms T h
    simp [validatePdfReference, h]

/-- Witness for C8 (amended) at concrete inputs for all three consumers. -/
theorem empty_selection_fallbacks_witness :
    pagesToOverlay exAppendix [] = List.range exAppendix.length ∧
    (mergeStep [] ⟨exMergeBaseToc, [], 0⟩ ⟨⟨exAppendixB, [], []⟩, 0, exMarkerText⟩).2
      = none ∧
    validatePdfReference (some [PageTerm.single 5]) 2 = .rejected :=
  ⟨empty_selection_fallbacks.1 exAppendix,
    (empty_selection_fallbacks.2.1 [] ⟨exMergeBaseToc, [], 0⟩
      ⟨⟨exAppendixB, [], []⟩, 0, exMarkerText⟩ rfl).2.2,
    empty_selection_fallbacks.2.2 [PageTerm.single 5] 2 (by decide)⟩

/-! ## C4: TOC fallback -/

theorem adjustAppendixToc_map (entries : List TocEntry) (o lvl : Int) :
    adjustAppendixToc entries o lvl =
      entries.map fun e => ⟨lvl + e.level, e.title, e.page + o⟩ := by
  unfold adjustAppendixToc
  apply List.map_congr_left
  intro e _
  have : e.page - 1 + o + 1 = e.page + o := by omega
  rw [this]

/-- C4 is refuted on the code: with no matching appendix heading in the base
TOC, the appendix entry of level 1 is appended to the master TOC at level 2 —
`_adjust_appendix_toc` is called with `base_nest_level=1` and *adds* it to
every entry's level, so the nesting levels are not left unchanged. -/
theorem toc_fallback_counterexample :
    (processMerges exMergeBaseToc exBaseToc [exMergePhToc]).masterToc =
      [⟨1, exIntroTitle, 1⟩, ⟨2, exDrawingTitle, 2⟩] ∧
    (⟨2, exDrawingTitle, 2⟩ : TocEntry) ≠ ⟨1, exDrawingTitle, 2⟩ :=
  ⟨by decide, by decide⟩

/-- C4 (amended): when no master-TOC entry matches the appendix-heading
heuristic, the appendix's outline entries are appended to the end of the
master TOC with each nesting level increased by one (nested as under a
level-1 heading, not left unchanged), their page numbers rebased by the
insertion point, and the placeholder's page insertion is still performed. -/
theorem merge_toc_fallback_appends (baseToc : List TocEntry) (st : MergeState)
    (info : MergeInfo)
    (hidx : info.originalMarkerPageIdx + st.offset < st.outputDoc.length)
    (hnone : findAppendixHeadingInToc baseToc
      (((info.originalMarkerPageIdx + st.offset : Nat) : Int) + 1) = none)
    (htoc : info.placeholder.appendixToc.isEmpty = false)
    (hsel : info.placeholder.selectedPages.isEmpty = false) :
    (mergeStep baseToc st info).1.masterToc =
      st.masterToc ++ info.placeholder.appendixToc.map
        (fun e => ⟨1 + e.level, e.title,
          e.page + ((info.originalMarkerPageIdx + st.offset + 1 : Nat) : Int)⟩) ∧
    (mergeStep baseToc st info).2.isSome = true := by
  constructor
  · push_cast at hnone
    simp [mergeStep, hidx, hnone, htoc, hsel, adjustAppendixToc_map]
  · simp [mergeStep, hidx, hsel]

/-- Witness for C4 (amended): the example base TOC holds no appendix
heading, and the appendix outline entry of level 1 lands at level 2, page
rebased by the insertion point 1. -/
theorem merge_toc_fallback_appends_witness :
    ((0 : Nat) + 0 < exMergeBaseToc.length ∧
      findAppendixHeadingInToc exBaseToc (((0 + 0 : Nat) : Int) + 1) = none ∧
      exAppendixToc.isEmpty = false ∧ ([0, 1] : List Nat).isEmpty = false) ∧
    ((mergeStep exBaseToc ⟨exMergeBaseToc, exBaseToc, 0⟩
        ⟨exMergePhToc, 0, getMergeMarker 1⟩).1.masterToc =
      exBaseToc ++ exMergePhToc.appendixToc.map
        (fun e => ⟨1 + e.level, e.title, e.page + ((0 + 0 + 1 : Nat) : Int)⟩) ∧
      (mergeStep exBaseToc ⟨exMergeBaseToc, exBaseToc, 0⟩
        ⟨exMergePhToc, 0, getMergeMarker 1⟩).2.isSome = true) :=
  ⟨⟨by decide, by decide, by decide, by decide⟩,
    merge_toc_fallback_appends exBaseToc ⟨exMergeBaseToc, exBaseToc, 0⟩
      ⟨exMergePhToc, 0, getMergeMarker 1⟩ (by decide) (by decide) (by decide) (by decide)⟩

/-! ## C3: merge ordering and offset bookkeeping -/

theorem insertListAt_length {α : Type} (l : List α) (i : Nat) (xs : List α) :
    (insertListAt l i xs).length = l.length + xs.length := by
  simp [insertListAt]
  omega

theorem range'_isEmpty_false (a k : Nat) (hk : 0 < k) :
    (List.range' a k).isEmpty = false := by
  obtain ⟨k', rfl⟩ : ∃ k', k = k' + 1 := ⟨k - 1, by omega⟩
  rw [List.range'_succ]
  rfl

theorem range'_head? (a k : Nat) (hk : 0 < k) :
    (List.range' a k).head? = some a := by
  rw [List.head?_range', if_neg (by omega)]

theorem range'_getLast? (a k : Nat) (hk : 0 < k) :
    (List.range' a k).getLast? = some (a + k - 1) := by
  rw [List.getLast?_range', if_neg (by omega)]

theorem insertedPages_length_contiguous (appendix : Document) (a k : Nat)
    (hk : 0 < k) (hle : a + k ≤ appendix.length) :
    (insertedPages appendix (List.range' a k)).length = k := by
  by_cases hlen : (List.range' a k).length = appendix.length
  · rw [insertedPages, if_pos hlen, ← hlen]
    simp
  · rw [insertedPages, if_neg hlen, range'_head? a k hk, range'_getLast? a k hk]
    simp only [sliceInclusive, List.length_take, List.length_drop]
    omega

/-- One loop iteration under the conditions C3 describes: the marker is
within the pristine base document and the selection is a non-empty
contiguous run.  The insertion lands immediately after
`originalMarkerPage + offset`, the offset grows by the number of pages
inserted, and the page count keeps pace with the offset. -/
theorem mergeStep_contiguous (baseToc : List TocEntry) (st : MergeState)
    (info : MergeInfo) (baseLen : Nat)
    (hinv : st.outputDoc.length = baseLen + st.offset)
    (hidx : info.originalMarkerPageIdx < baseLen)
    (hc : contiguousSelection info.placeholder) :
    (mergeStep baseToc st info).2 =
      some ⟨info.originalMarkerPageIdx, st.offset,
            info.originalMarkerPageIdx + st.offset + 1,
            info.placeholder.selectedPages.length,
            st.offset + info.placeholder.selectedPages.length⟩ ∧
    (mergeStep baseToc st info).1.offset =
      st.offset + info.placeholder.selectedPages.length ∧
    (mergeStep baseToc st info).1.outputDoc.length =
      baseLen + (st.offset + info.placeholder.selectedPages.length) := by
  obtain ⟨a, k, hk, hle, hsel⟩ := hc
  have hlt : info.originalMarkerPageIdx + st.offset < st.outputDoc.length := by
    omega
  have hselne : info.placeholder.selectedPages.isEmpty = false := by
    rw [hsel]
    exact range'_isEmpty_false a k hk
  have hinslen :
      (insertedPages info.placeholder.appendix info.placeholder.selectedPages).length
        = k := by
    rw [hsel]
    exact insertedPages_length_contiguous _ a k hk hle
  have hsellen : info.placeholder.selectedPages.length = k := by
    rw [hsel]
    simp
  refine ⟨?_, ?_, ?_⟩
  · simp [mergeStep, hlt, hselne, hinslen, hsellen]
  · simp [mergeStep, hlt, hselne]
  · have hresult : (mergeStep baseToc st info).1.outputDoc.length =
        st.outputDoc.length + k := by
      simp [mergeStep, hlt, hselne, insertListAt_length, modifyPage_length, hinslen]
    rw [hresult, hinv, hsellen]
    omega

/-- The merge loop realises exactly the claimed offset recurrence. -/
theorem mergeFold_events (baseToc : List TocEntry) (baseLen : Nat) :
    ∀ (infos : List MergeInfo) (st : MergeState),
      st.outputDoc.length = baseLen + st.offset →
      (∀ i ∈ infos, i.originalMarkerPageIdx < baseLen ∧
        contiguousSelection i.placeholder) →
      (mergeFold baseToc st infos).2 =
        expectedEvents st.offset
          (infos.map fun i =>
            (i.originalMarkerPageIdx, i.placeholder.selectedPages.length)) := by
  intro infos
  induction infos with
  | nil =>
      intro st _ _
      simp [mergeFold, expectedEvents]
  | cons info rest ih =>
      intro st hinv h
      obtain ⟨hidx, hc⟩ := h info (by simp)
      have hstep := mergeStep_contiguous baseToc st info baseLen hinv hidx hc
      have hinv' : (mergeStep baseToc st info).1.outputDoc.length =
          baseLen + (mergeStep baseToc st info).1.offset := by
        rw [hstep.2.1, hstep.2.2]
      have hrec := ih (mergeStep baseToc st info).1 hinv'
        (fun i hi => h i (by simp [hi]))
      rw [hstep.2.1] at hrec
      simp only [mergeFold, List.map_cons, expectedEvents]
      rw [hstep.1, hrec]
      simp

theorem findMarkerPageIdxAux_lt (marker : String) :
    ∀ (doc : Document) (i p : Nat),
      findMarkerPageIdxAux marker doc i = some p → p < i + doc.length := by
  intro doc
  induction doc with
  | nil =>
      intro i p h
      simp [findMarkerPageIdxAux] at h
  | cons page rest ih =>
      intro i p h
      rw [findMarkerPageIdxAux] at h
      by_cases hs : (searchFor page marker).isEmpty
      · rw [if_pos hs] at h
        have := ih (i + 1) p h
        simp only [List.length_cons]
        omega
      · rw [if_neg hs] at h
        injection h with h
        simp only [List.length_cons]
        omega

theorem scanMergeMarkersAux_mem (base : Document) :
    ∀ (phs : List MergePlaceholder) (idx : Nat) (inf : MergeInfo),
      inf ∈ scanMergeMarkersAux base phs idx →
      inf.placeholder ∈ phs ∧ inf.originalMarkerPageIdx < base.length := by
  intro phs
  induction phs with
  | nil =>
      intro idx inf h
      simp [scanMergeMarkersAux] at h
  | cons ph rest ih =>
      intro idx inf h
      rw [scanMergeMarkersAux] at h
      cases hf : findMarkerPageIdx base (getMergeMarker idx) with
      | some p =>
          rw [hf] at h
          rcases List.mem_cons.mp h with heq | hmem
          · subst heq
            refine ⟨by simp, ?_⟩
            have := findMarkerPageIdxAux_lt (getMergeMarker idx) base 0 p hf
            simpa using this
          · have := ih (idx + 1) inf hmem
            exact ⟨by simp [this.1], this.2⟩
      | none =>
          rw [hf] at h
          have := ih (idx + 1) inf h
          exact ⟨by simp [this.1], this.2⟩

theorem sorted_map_markerPage (infos : List MergeInfo) :
    ((List.insertionSort mergeInfoLe infos).map
      (·.originalMarkerPageIdx)).Sorted (· ≤ ·) := by
  have h := List.sorted_insertionSort mergeInfoLe infos
  rw [List.Sorted, List.pairwise_map]
  exact h

theorem getLast?_mem_self : ∀ (l : List Nat) (b : Nat), l.getLast? = some b → b ∈ l
  | [], _, h => by simp at h
  | [x], b, h => by
      simp only [List.getLast?_singleton, Option.some.injEq] at h
      simp [h]
  | x :: y :: rest, b, h => by
      rw [List.getLast?_cons_cons] at h
      exact List.mem_cons_of_mem x (getLast?_mem_self (y :: rest) b h)

/-- In a strictly ascending list the last element is at least the head plus
the length minus one. -/
theorem sorted_head_getLast_bound : ∀ (sel : List Nat), sel.Sorted (· < ·) →
    ∀ a b, sel.head? = some a → sel.getLast? = some b → a + sel.length ≤ b + 1
  | [], _, a, b, ha, _ => by simp at ha
  | [x], _, a, b, ha, hb => by
      simp only [List.head?_cons, Option.some.injEq] at ha
      simp only [List.getLast?_singleton, Option.some.injEq] at hb
      subst ha
      subst hb
      simp
  | x :: y :: rest, hs, a, b, ha, hb => by
      simp only [List.head?_cons, Option.some.injEq] at ha
      subst ha
      rw [List.getLast?_cons_cons] at hb
      have hxy := (List.sorted_cons.mp hs).1 y (by simp)
      have hrec := sorted_head_getLast_bound (y :: rest) hs.of_cons y b rfl hb
      simp only [List.length_cons] at hrec ⊢
      omega

/-- For a non-empty strictly ascending in-bounds selection, the bounding run
`insert_pdf` physically inserts holds at least as many pages as were
selected (strictly more whenever the selection has gaps). -/
theorem insertedPages_length_ge (appendix : Document) (sel : List Nat)
    (hne : sel ≠ []) (hs : sel.Sorted (· < ·))
    (hbd : ∀ p ∈ sel, p < appendix.length) :
    sel.length ≤ (insertedPages appendix sel).length := by
  by_cases hlen : sel.length = appendix.length
  · rw [insertedPages, if_pos hlen, hlen]
  · rw [insertedPages, if_neg hlen]
    obtain ⟨a, ha⟩ : ∃ a, sel.head? = some a := by
      cases sel with
      | nil => exact absurd rfl hne
      | cons x xs => exact ⟨x, rfl⟩
    obtain ⟨b, hb⟩ : ∃ b, sel.getLast? = some b := by
      cases hl : sel.getLast? with
      | some b => exact ⟨b, rfl⟩
      | none => exact absurd (List.getLast?_eq_none_iff.mp hl) hne
    rw [ha, hb]
    have h1 := sorted_head_getLast_bound sel hs a b ha hb
    have h2 : b < appendix.length := hbd b (getLast?_mem_self sel b hb)
    simp only [sliceInclusive, List.length_take, List.length_drop]
    omega

/-- One loop iteration for an in-range marker and a well-formed (possibly
non-contiguous) selection: the insertion lands immediately after
`originalMarkerPage + offset`, the event records the pages physically
inserted, the offset grows by the selection length, and the page count keeps
at least pace with the offset. -/
theorem mergeStep_wellFormed (baseToc : List TocEntry) (st : MergeState)
    (info : MergeInfo) (baseLen : Nat)
    (hinv : baseLen + st.offset ≤ st.outputDoc.length)
    (hidx : info.originalMarkerPageIdx < baseLen)
    (hw : selWellFormed info.placeholder) :
    (mergeStep baseToc st info).2 =
      some ⟨info.originalMarkerPageIdx, st.offset,
            info.originalMarkerPageIdx + st.offset + 1,
            (insertedPages info.placeholder.appendix
              info.placeholder.selectedPages).length,
            st.offset + info.placeholder.selectedPages.length⟩ ∧
    (mergeStep baseToc st info).1.offset =
      st.offset + info.placeholder.selectedPages.length ∧
    baseLen + (st.offset + info.placeholder.selectedPages.length) ≤
      (mergeStep baseToc st info).1.outputDoc.length := by
  obtain ⟨hne, hsort, hbd⟩ := hw
  have hlt : info.originalMarkerPageIdx + st.offset < st.outputDoc.length := by
    omega
  have hselne : info.placeholder.selectedPages.isEmpty = false := by
    cases hsel : info.placeholder.selectedPages with
    | nil => exact absurd hsel hne
    | cons x xs => rfl
  have hge := insertedPages_length_ge info.placeholder.appendix
    info.placeholder.selectedPages hne hsort hbd
  refine ⟨?_, ?_, ?_⟩
  · simp [mergeStep, hlt, hselne]
  · simp [mergeStep, hlt, hselne]
  · have hresult : (mergeStep baseToc st info).1.outputDoc.length =
        st.outputDoc.length +
          (insertedPages info.placeholder.appendix
            info.placeholder.selectedPages).length := by
      simp [mergeStep, hlt, hselne, insertListAt_length, modifyPage_length]
    rw [hresult]
    omega

/-- The merge loop realises exactly the selection-length offset recurrence
for well-formed selections, contiguous or not. -/
theorem mergeFold_events_sel (baseToc : List TocEntry) (baseLen : Nat) :
    ∀ (infos : List MergeInfo) (st : MergeState),
      baseLen + st.offset ≤ st.outputDoc.length →
      (∀ i ∈ infos, i.originalMarkerPageIdx < baseLen ∧
        selWellFormed i.placeholder) →
      (mergeFold baseToc st infos).2 =
        expectedEventsSel st.offset
          (infos.map fun i =>
            (i.originalMarkerPageIdx, i.placeholder.selectedPages.length,
             (insertedPages i.placeholder.appendix
               i.placeholder.selectedPages).length)) := by
  intro infos
  induction infos with
  | nil =>
      intro st _ _
      simp [mergeFold, expectedEventsSel]
  | cons info rest ih =>
      intro st hinv h
      obtain ⟨hidx, hw⟩ := h info (by simp)
      have hstep := mergeStep_wellFormed baseToc st info baseLen hinv hidx hw
      have hinv' : baseLen + (mergeStep baseToc st info).1.offset ≤
          (mergeStep baseToc st info).1.outputDoc.length := by
        rw [hstep.2.1]
        exact hstep.2.2
      have hrec := ih (mergeStep baseToc st info).1 hinv'
        (fun i hi => h i (by simp [hi]))
      rw [hstep.2.1] at hrec
      simp only [mergeFold, List.map_cons, expectedEventsSel]
      rw [hstep.1, hrec]
      simp

/-- C3 is refuted on the code: for the non-contiguous selection `[0, 2]` of
a 3-page appendix, `insert_pdf` receives the bounding run
`from_page=0, to_page=2` and physically inserts 3 pages (the 2-page base
grows to 5), yet the accumulated offset advances by only 2 — the
selection's length — so "increases the offset by the number of pages
inserted" fails. -/
theorem merge_noncontiguous_offset_counterexample :
    (processMerges exMergeBaseToc [] [exMergePhNoncontig]).events =
      [⟨0, 0, 1, 3, 2⟩] ∧
    (processMerges exMergeBaseToc [] [exMergePhNoncontig]).outputDoc.length =
      exMergeBaseToc.length + 3 ∧
    exMergePhNoncontig.selectedPages.length = 2 ∧
    (⟨0, 0, 1, 3, 2⟩ : MergeEvent).offsetAfter ≠
      (⟨0, 0, 1, 3, 2⟩ : MergeEvent).offsetBefore +
        (⟨0, 0, 1, 3, 2⟩ : MergeEvent).numPagesInserted := by
  refine ⟨by decide, by decide, by decide, by decide⟩

/-- C3 (amended): the merge engine processes placeholders in ascending order
of the page index at which each marker was found in the pristine base
document, and — for non-empty, strictly ascending, in-bounds selections —
inserts each placeholder's pages immediately after
`originalMarkerPage + offset` (starting from offset 0) and then advances the
offset by the number of *selected* pages.  That number equals the number of
pages physically inserted exactly when the selection is contiguous; a
non-contiguous selection physically inserts its bounding contiguous run
(more pages than selected) while the offset still grows by the selection
length only. -/
theorem merge_order_and_selected_offsets (base : Document)
    (baseToc : List TocEntry) (phs : List MergePlaceholder)
    (h : ∀ ph ∈ phs, selWellFormed ph) :
    ((List.insertionSort mergeInfoLe (scanMergeMarkers base phs)).map
      (·.originalMarkerPageIdx)).Sorted (· ≤ ·) ∧
    (processMerges base baseToc phs).events =
      expectedEventsSel 0
        ((List.insertionSort mergeInfoLe (scanMergeMarkers base phs)).map
          fun i => (i.originalMarkerPageIdx, i.placeholder.selectedPages.length,
            (insertedPages i.placeholder.appendix
              i.placeholder.selectedPages).length)) := by
  refine ⟨sorted_map_markerPage _, ?_⟩
  have hmem : ∀ i ∈ List.insertionSort mergeInfoLe (scanMergeMarkers base phs),
      i.originalMarkerPageIdx < base.length ∧ selWellFormed i.placeholder := by
    intro i hi
    have hi' := ((List.perm_insertionSort mergeInfoLe _).mem_iff).mp hi
    have hscan := scanMergeMarkersAux_mem base phs 1 i hi'
    exact ⟨hscan.2, h _ hscan.1⟩
  have hfold := mergeFold_events_sel baseToc base.length
    (List.insertionSort mergeInfoLe (scanMergeMarkers base phs))
    ⟨base, baseToc, 0⟩ (by simp) hmem
  simpa [processMerges] using hfold

/-- Witness for C3 (amended): the spec's offset-accumulation example with
contiguous selections.  Appendix A (3 pages, marker on 0-based page 4) is
inserted after output page 5; appendix B (2 pages, marker on 0-based page 6,
so its content would start at 1-based source page 8) is inserted with offset
3 at 0-based index 10 — it starts at 1-based output page 11, and for both
placeholders the selection length equals the pages physically inserted. -/
theorem merge_order_and_selected_offsets_witness :
    (∀ ph ∈ [exMergePhA, exMergePhB], selWellFormed ph) ∧
    (((List.insertionSort mergeInfoLe
        (scanMergeMarkers exMergeBase [exMergePhA, exMergePhB])).map
      (·.originalMarkerPageIdx)).Sorted (· ≤ ·) ∧
    (processMerges exMergeBase [] [exMergePhA, exMergePhB]).events =
      expectedEventsSel 0
        ((List.insertionSort mergeInfoLe
            (scanMergeMarkers exMergeBase [exMergePhA, exMergePhB])).map
          fun i => (i.originalMarkerPageIdx, i.placeholder.selectedPages.length,
            (insertedPages i.placeholder.appendix
              i.placeholder.selectedPages).length))) ∧
    (processMerges exMergeBase [] [exMergePhA, exMergePhB]).events =
      [⟨4, 0, 5, 3, 3⟩, ⟨6, 3, 10, 2, 5⟩] := by
  have hc : ∀ ph ∈ [exMergePhA, exMergePhB], selWellFormed ph := by
    intro ph hph
    rcases List.mem_cons.mp hph with heq | hph2
    · subst heq
      unfold selWellFormed
      exact ⟨by decide, by decide, by decide⟩
    · rcases List.mem_cons.mp hph2 with heq | hph3
      · subst heq
        unfold selWellFormed
        exact ⟨by decide, by decide, by decide⟩
      · simp at hph3
  exact ⟨hc,
    merge_order_and_selected_offsets exMergeBase [] [exMergePhA, exMergePhB] hc,
    by decide⟩

end ReportCompiler
